import Mathlib

/-!
# openapi-to-mock-server: a shallow embedding and verification

This file embeds the core of `mock-server-setting.go` (the schema-aware
variant) in Lean 4 and settles the frozen claims about it.

Modelling conventions:
* Go strings are `List Char` (all patterns used by the program are ASCII, so
  byte-level and rune-level string operations coincide on them).
* Go maps are association lists; the list order stands for the (unspecified)
  order a `range` loop observes the map in.  Two association lists that are
  permutations of each other denote the same map.
* `log.Fatalf` and nil-pointer panics abort the process: fallible functions
  return `Except GoAbort`.
* Loops are embedded either by structural recursion or with an explicit fuel
  counter that callers instantiate with a bound large enough for the loop's
  real trip count (fuel exhaustion returns the current state; all theorems
  are stated at call sites whose fuel suffices).
-/

namespace MockServer

/-! ## Name Sanitizer (`cleanFolderName`, mock-server-setting.go:269-288) -/

/-- `unicode.IsSpace` from the Go standard library: the Unicode White_Space
property (this is the predicate `strings.TrimSpace` trims by). -/
def goIsSpace (c : Char) : Bool :=
  c.toNat ∈ [0x9, 0xA, 0xB, 0xC, 0xD, 0x20, 0x85, 0xA0, 0x1680,
    0x2000, 0x2001, 0x2002, 0x2003, 0x2004, 0x2005, 0x2006, 0x2007,
    0x2008, 0x2009, 0x200A, 0x2028, 0x2029, 0x202F, 0x205F, 0x3000]

/-- Fueled core of `strings.ReplaceAll s old new` (Go `strings.Replace` with
`n = -1`): scan left to right, replace each non-overlapping occurrence of
`old`, continue after the inserted `new` without rescanning it.  The
`old = ""` insertion behaviour of Go is not modelled; no call site of the
program passes an empty pattern, and the guard keeps that case the identity. -/
def goReplaceAllF : Nat → List Char → List Char → List Char → List Char
  | 0, s, _, _ => s
  | _ + 1, [], _, _ => []
  | fuel + 1, c :: rest, old, new =>
    if old.isPrefixOf (c :: rest) ∧ old ≠ [] then
      new ++ goReplaceAllF fuel ((c :: rest).drop old.length) old new
    else
      c :: goReplaceAllF fuel rest old new

/-- `strings.ReplaceAll s old new`. -/
def goReplaceAll (s old new : List Char) : List Char :=
  goReplaceAllF s.length s old new

/-- `strings.TrimSpace`: drop leading and trailing Unicode white space. -/
def goTrimSpace (s : List Char) : List Char :=
  ((s.dropWhile goIsSpace).reverse.dropWhile goIsSpace).reverse

/-- `notAllowedChars` from `cleanFolderName` (mock-server-setting.go:277). -/
def notAllowedChars : List Char := ['<', '>', ':', '"', '/', '\\', '|', '?', '*']

/-- `cleanFolderName` (mock-server-setting.go:269-288): remove newlines, trim
leading/trailing white space, replace each space with an underscore, then
remove each disallowed character. -/
def cleanFolderName (name : List Char) : List Char :=
  let name1 := goReplaceAll name ['\n'] []
  let name2 := goTrimSpace name1
  let cleanName := goReplaceAll name2 [' '] ['_']
  notAllowedChars.foldl (fun acc ch => goReplaceAll acc [ch] []) cleanName

/-- Character-level restatement of `cleanFolderName` used to characterize the
sanitizer: filter out newlines, trim, substitute each space by an underscore,
filter out the disallowed characters. -/
def cleanFolderNameSpec (s : List Char) : List Char :=
  ((goTrimSpace (s.filter (fun c => c != '\n'))).map
      (fun c => if c = ' ' then '_' else c)).filter
    (fun c => !(notAllowedChars.contains c))

theorem goReplaceAllF_single_sub (o d : Char) :
    ∀ (fuel : Nat) (s : List Char), s.length ≤ fuel →
      goReplaceAllF fuel s [o] [d] = s.map (fun c => if c = o then d else c) := by
  intro fuel
  induction fuel with
  | zero =>
    intro s hs
    have : s = [] := List.length_eq_zero.mp (Nat.le_zero.mp hs)
    subst this
    rfl
  | succ fuel ih =>
    intro s hs
    match s with
    | [] => rfl
    | c :: rest =>
      have hlen : rest.length ≤ fuel := by simpa using hs
      by_cases h : o = c
      · subst h
        simp [goReplaceAllF, List.isPrefixOf, ih rest hlen]
      · have hne : (o == c) = false := by simp [h]
        have h' : ¬c = o := fun hh => h hh.symm
        simp [goReplaceAllF, List.isPrefixOf, hne, h', ih rest hlen]

theorem goReplaceAll_single_sub (s : List Char) (o d : Char) :
    goReplaceAll s [o] [d] = s.map (fun c => if c = o then d else c) :=
  goReplaceAllF_single_sub o d s.length s (Nat.le_refl _)

theorem goReplaceAllF_single_del (o : Char) :
    ∀ (fuel : Nat) (s : List Char), s.length ≤ fuel →
      goReplaceAllF fuel s [o] [] = s.filter (fun c => c != o) := by
  intro fuel
  induction fuel with
  | zero =>
    intro s hs
    have : s = [] := List.length_eq_zero.mp (Nat.le_zero.mp hs)
    subst this
    rfl
  | succ fuel ih =>
    intro s hs
    match s with
    | [] => rfl
    | c :: rest =>
      have hlen : rest.length ≤ fuel := by simpa using hs
      by_cases h : o = c
      · subst h
        simp [goReplaceAllF, List.isPrefixOf, ih rest hlen]
      · have hne : (o == c) = false := by simp [h]
        have h' : ¬c = o := fun hh => h hh.symm
        simp [goReplaceAllF, List.isPrefixOf, hne, h', ih rest hlen]

theorem goReplaceAll_single_del (s : List Char) (o : Char) :
    goReplaceAll s [o] [] = s.filter (fun c => c != o) :=
  goReplaceAllF_single_del o s.length s (Nat.le_refl _)

theorem foldl_removals (cs : List Char) :
    ∀ s : List Char,
      cs.foldl (fun acc ch => goReplaceAll acc [ch] []) s
        = s.filter (fun c => !(cs.contains c)) := by
  induction cs with
  | nil => intro s; simp
  | cons ch cs ih =>
    intro s
    rw [List.foldl_cons, goReplaceAll_single_del, ih, List.filter_filter]
    apply List.filter_congr
    intro c _
    by_cases h : c = ch
    · subst h; simp
    · simp [h, fun hh : ch = c => h hh.symm]

/-- The sanitizer, characterized one character at a time. -/
theorem cleanFolderName_eq_spec (s : List Char) :
    cleanFolderName s = cleanFolderNameSpec s := by
  simp only [cleanFolderName, cleanFolderNameSpec]
  rw [goReplaceAll_single_del, goReplaceAll_single_sub, foldl_removals]

theorem goTrimSpace_subset {c : Char} {s : List Char} (h : c ∈ goTrimSpace s) :
    c ∈ s := by
  unfold goTrimSpace at h
  have h1 := List.mem_reverse.mp h
  have h2 := (List.dropWhile_sublist (l := (s.dropWhile goIsSpace).reverse)
    (p := goIsSpace)).mem h1
  have h3 := List.mem_reverse.mp h2
  exact (List.dropWhile_sublist (l := s) (p := goIsSpace)).mem h3

theorem dropWhile_eq_self_of {p : Char → Bool} {l : List Char}
    (h : ∀ c ∈ l, p c = false) : l.dropWhile p = l := by
  cases l with
  | nil => rfl
  | cons c rest => simp [List.dropWhile, h c (List.mem_cons_self c rest)]

theorem map_eq_self_of {α : Type} {f : α → α} {l : List α}
    (h : ∀ a ∈ l, f a = a) : l.map f = l := by
  induction l with
  | nil => rfl
  | cons a rest ih =>
    simp only [List.map_cons, h a (List.mem_cons_self a rest)]
    rw [ih (fun b hb => h b (List.mem_cons_of_mem a hb))]

theorem goTrimSpace_eq_self_of {l : List Char}
    (h : ∀ c ∈ l, goIsSpace c = false) : goTrimSpace l = l := by
  unfold goTrimSpace
  rw [dropWhile_eq_self_of h,
    dropWhile_eq_self_of (fun c hc => h c (List.mem_reverse.mp hc)),
    List.reverse_reverse]

/-- Every character of the sanitizer's output is a character of the input,
with spaces turned into underscores, and only non-newline input characters
survive. -/
theorem mem_cleanFolderName {c : Char} {s : List Char}
    (h : c ∈ cleanFolderName s) :
    (notAllowedChars.contains c) = false ∧
      (c = '_' ∨ (c ∈ s ∧ c ≠ '\n' ∧ c ≠ ' ')) := by
  rw [cleanFolderName_eq_spec] at h
  unfold cleanFolderNameSpec at h
  obtain ⟨hmem, hnotallowed⟩ := List.mem_filter.mp h
  refine ⟨by simpa using hnotallowed, ?_⟩
  obtain ⟨c0, hc0, hc0eq⟩ := List.mem_map.mp hmem
  by_cases hsp : c0 = ' '
  · left; rw [← hc0eq, hsp]; rfl
  · right
    have : c = c0 := by rw [← hc0eq]; simp [hsp]
    subst this
    have hc0' := goTrimSpace_subset hc0
    obtain ⟨hin, hnl⟩ := List.mem_filter.mp hc0'
    exact ⟨hin, by simpa using hnl, hsp⟩

/-- After one sanitizer pass over an input whose white space is only spaces
and newlines, no white space remains at all. -/
theorem cleanFolderName_no_space {s : List Char}
    (h : ∀ c ∈ s, goIsSpace c = true → c = ' ' ∨ c = '\n') :
    ∀ c ∈ cleanFolderName s, goIsSpace c = false := by
  intro c hc
  obtain ⟨-, hcase⟩ := mem_cleanFolderName hc
  rcases hcase with hund | ⟨hin, hnl, hsp⟩
  · subst hund; rfl
  · by_cases hws : goIsSpace c = true
    · rcases h c hin hws with h1 | h1
      · exact absurd h1 hsp
      · exact absurd h1 hnl
    · simpa using hws

/-- On a white-space-free, already-filtered token the sanitizer is the
identity. -/
theorem cleanFolderName_eq_self {t : List Char}
    (hws : ∀ c ∈ t, goIsSpace c = false)
    (hallowed : ∀ c ∈ t, (notAllowedChars.contains c) = false) :
    cleanFolderName t = t := by
  rw [cleanFolderName_eq_spec]
  unfold cleanFolderNameSpec
  have hnl : ∀ c ∈ t, (c != '\n') = true := by
    intro c hc
    have := hws c hc
    simp only [bne_iff_ne, ne_eq]
    intro hEq
    subst hEq
    simp [goIsSpace] at this
  rw [List.filter_eq_self.mpr hnl]
  rw [goTrimSpace_eq_self_of hws]
  rw [map_eq_self_of (f := fun c => if c = ' ' then '_' else c)]
  · rw [List.filter_eq_self.mpr]
    intro c hc
    simpa using hallowed c hc
  · intro c hc
    have := hws c hc
    have hne : ¬c = ' ' := by
      intro hEq; subst hEq; simp [goIsSpace] at this
    simp [hne]

/-- C4 counterexample: an internal run of two spaces becomes two
underscores, not the single underscore the claim states. -/
theorem sanitize_space_run_ce :
    cleanFolderName ("a  b".data) = "a__b".data ∧
      cleanFolderName ("a  b".data) ≠ "a_b".data := by
  constructor
  · decide
  · decide

/-- C4 (amended): `cleanFolderName` removes newline characters, trims
leading and trailing Unicode white space, replaces each remaining space
character (U+0020) by one underscore — so a run of k spaces yields k
underscores and other white space such as tabs is kept — and removes the
characters `< > : " / \ | ? *`; formally it equals the character-level
function `cleanFolderNameSpec` stating exactly that. -/
theorem sanitize_char_level_characterization :
    ∀ s : List Char, cleanFolderName s = cleanFolderNameSpec s :=
  cleanFolderName_eq_spec

/-- C7 counterexample: sanitizing `"<\ta"` yields `"\ta"` (removing `<`
exposes a leading tab the first trim never saw), and a second pass trims
that tab, so `sanitize ∘ sanitize ≠ sanitize` at this input. -/
theorem sanitize_not_idempotent_ce :
    cleanFolderName (cleanFolderName ("<\ta".data)) ≠
      cleanFolderName ("<\ta".data) := by
  decide

/-- C7 (amended): `cleanFolderName` is idempotent on any input whose white
space consists only of spaces and newlines; in general removing a
disallowed character can expose other white space (such as a tab) at the
ends, which only the second application trims away. -/
theorem sanitize_idempotent_on_plain_whitespace (s : List Char)
    (h : ∀ c ∈ s, goIsSpace c = true → c = ' ' ∨ c = '\n') :
    cleanFolderName (cleanFolderName s) = cleanFolderName s := by
  apply cleanFolderName_eq_self (cleanFolderName_no_space h)
  intro c hc
  exact (mem_cleanFolderName hc).1

/-- Witness for C7 (amended) at the concrete input `"a b<"`. -/
theorem sanitize_idempotent_on_plain_whitespace_witness :
    cleanFolderName (cleanFolderName ("a b<".data)) =
      cleanFolderName ("a b<".data) :=
  sanitize_idempotent_on_plain_whitespace ("a b<".data) (by decide)

/-- C8: for every input, the sanitizer's output contains none of the
characters `< > : " / \ | ? *` and no literal newline. -/
theorem sanitize_output_avoids_banned_chars (s : List Char) :
    (cleanFolderName s).all
      (fun c => !(notAllowedChars.contains c) && c != '\n') = true := by
  rw [List.all_eq_true]
  intro c hc
  obtain ⟨hallowed, hcase⟩ := mem_cleanFolderName hc
  have hnl : c ≠ '\n' := by
    rcases hcase with hund | ⟨-, hnl, -⟩
    · subst hund; decide
    · exact hnl
  have hnotmem : c ∉ notAllowedChars := by
    intro hmem
    simp [List.contains, List.elem_iff, hmem] at hallowed
  simp [hallowed, hnl, hnotmem]

/-! ## JSON values and `encoding/json` marshalling

`interface{}` example payloads are modelled as `Json` values.  Numbers are
modelled as integers: every numeric example the claims mention is integral,
and floating-point rendering is outside the scope of this embedding. -/

inductive Json : Type where
  | null : Json
  | bool (b : Bool) : Json
  | num (n : Int) : Json
  | str (s : String) : Json
  | arr (xs : List Json) : Json
  | obj (kvs : List (String × Json)) : Json

/-- Lower-case hexadecimal digit, for `\u00xx` escapes. -/
def hexDigit (n : Nat) : Char :=
  if n < 10 then Char.ofNat ('0'.toNat + n) else Char.ofNat ('a'.toNat + (n - 10))

/-- `encoding/json` string escaping with the default HTML escaping:
quote, backslash, newline, carriage return and tab get two-character
escapes, `<`, `>`, `&` become `<`, `>`, `&`, and the
remaining control characters below U+0020 become `\u00xx`. -/
def jsonEscapeChar (c : Char) : List Char :=
  if c = '"' then ['\\', '"']
  else if c = '\\' then ['\\', '\\']
  else if c = '\n' then ['\\', 'n']
  else if c = '\r' then ['\\', 'r']
  else if c = '\t' then ['\\', 't']
  else if c = '<' then "\\u003c".data
  else if c = '>' then "\\u003e".data
  else if c = '&' then "\\u0026".data
  else if c.toNat < 0x20 then
    "\\u00".data ++ [hexDigit (c.toNat / 16), hexDigit (c.toNat % 16)]
  else [c]

def jsonQuote (s : String) : String :=
  "\"" ++ String.mk (s.data.map jsonEscapeChar).flatten ++ "\""

/-- Two spaces per nesting level: `json.MarshalIndent(v, "", "  ")`. -/
def indentOf (depth : Nat) : String := String.join (List.replicate depth "  ")

/-- `encoding/json` renders a Go map with its keys in sorted (byte) order;
for valid UTF-8 that is code-point order, which `String.lt` decides. -/
def insertByKey (kv : String × Json) : List (String × Json) → List (String × Json)
  | [] => [kv]
  | hd :: tl => if kv.1 < hd.1 then kv :: hd :: tl else hd :: insertByKey kv tl

def sortByKey (l : List (String × Json)) : List (String × Json) :=
  l.foldr insertByKey []

/-- `json.MarshalIndent(v, "", "  ")` on a `Json` value.  The first argument
is fuel bounding the nesting depth (instantiated with `sizeOf`, which always
suffices). -/
def renderJsonF : Nat → Nat → Json → String
  | 0, _, _ => ""
  | fuel + 1, depth, j =>
    match j with
    | .null => "null"
    | .bool b => if b then "true" else "false"
    | .num n => toString n
    | .str s => jsonQuote s
    | .arr [] => "[]"
    | .arr xs =>
      "[\n" ++ String.intercalate ",\n"
          (xs.map (fun x => indentOf (depth + 1) ++ renderJsonF fuel (depth + 1) x))
        ++ "\n" ++ indentOf depth ++ "]"
    | .obj [] => "\x7b\x7d"
    | .obj kvs =>
      "\x7b\n" ++ String.intercalate ",\n"
          ((sortByKey kvs).map (fun kv =>
            indentOf (depth + 1) ++ jsonQuote kv.1 ++ ": "
              ++ renderJsonF fuel (depth + 1) kv.2))
        ++ "\n" ++ indentOf depth ++ "\x7d"

/-- Fuel bound for `renderJsonF`: far beyond any nesting depth the program
can encounter (Go's own JSON machinery caps nesting around 10000). -/
def renderFuel : Nat := 10000

def renderJson (j : Json) : String := renderJsonF renderFuel 0 j

/-! ## The ordered map used by the Schema Example Synthesizer -/

/-- Modelled from the spec: the repository's ordered-map implementation
(`NewOrderedMap` with `Set` and a custom `MarshalJSON`) is not among the
source files.  Per the spec it is "an explicitly ordered map" whose keys
are emitted "in first-declaration (insertion) order". -/
structure OrderedMap : Type where
  entries : List (String × Option Json)

/-- Modelled from the spec: a fresh, empty ordered map. -/
def NewOrderedMap : OrderedMap := ⟨[]⟩

/-- Modelled from the spec: `Set` keeps the first-insertion position of an
existing key and appends a new key at the end. -/
def OrderedMap.set (om : OrderedMap) (k : String) (v : Option Json) : OrderedMap :=
  if om.entries.any (fun kv => kv.1 == k) then
    ⟨om.entries.map (fun kv => if kv.1 == k then (k, v) else kv)⟩
  else ⟨om.entries ++ [(k, v)]⟩

/-- A `nil` example marshals as `null`; any other value marshals as the
`Json` value does at the given depth. -/
def renderOptJson (depth : Nat) : Option Json → String
  | none => "null"
  | some j => renderJsonF renderFuel depth j

/-- Modelled from the spec (custom `MarshalJSON` of the ordered map), then
indented the way `json.MarshalIndent(om, "", "  ")` re-formats it: a JSON
object with the entries in insertion order. -/
def marshalIndentOM (om : OrderedMap) : String :=
  match om.entries with
  | [] => "\x7b\x7d"
  | entries =>
    "\x7b\n" ++ String.intercalate ",\n"
        (entries.map (fun kv => "  " ++ jsonQuote kv.1 ++ ": " ++ renderOptJson 1 kv.2))
      ++ "\n\x7d"

/-! ## Schemas and the Schema Example Synthesizer
(`extractSchemaExample`, mock-server-setting.go:241-264) -/

mutual

/-- kin-openapi `Schema`, restricted to the fields the program reads:
`Type`, `Properties` and `Example`.  `Properties` is a Go map: the list
order is the (unspecified) order a `range` loop observes. -/
inductive Schema : Type where
  | mk (type : Option (List String)) (properties : List (String × SchemaRef))
      (exampleValue : Option Json) : Schema

/-- kin-openapi `SchemaRef`: a reference string plus the resolved schema
(the loader hands the program a fully resolved graph, so `Value` is
modelled as always present). -/
inductive SchemaRef : Type where
  | mk (ref : String) (value : Schema) : SchemaRef

end

def Schema.type : Schema → Option (List String)
  | .mk t _ _ => t

def Schema.properties : Schema → List (String × SchemaRef)
  | .mk _ ps _ => ps

/-- The Go field `Example`. -/
def Schema.exampleValue : Schema → Option Json
  | .mk _ _ e => e

def SchemaRef.ref : SchemaRef → String
  | .mk r _ => r

def SchemaRef.value : SchemaRef → Schema
  | .mk _ v => v

/-- kin-openapi `Types.Is`: true when the (possibly absent) type list holds
exactly one entry equal to the given type. -/
def typesIs : Option (List String) → String → Bool
  | none, _ => false
  | some ts, typ => ts.length == 1 && ts.headD "" == typ

/-- `extractSchemaExample` (mock-server-setting.go:241-264): for an
object-typed schema, walk the properties in the order the `range` loop
yields them, and `Set` each string- or integer-typed property's example
into the ordered map; marshal the map with 2-space indentation.  (The
marshal-error fallback to `""` is unreachable for these values and is not
modelled.) -/
def extractSchemaExample (schema : Schema) : String :=
  let om := NewOrderedMap
  let om :=
    if typesIs schema.type "object" then
      schema.properties.foldl (fun om kv =>
        let childSchema := kv.2.value
        if typesIs childSchema.type "string" || typesIs childSchema.type "integer" then
          om.set kv.1 childSchema.exampleValue
        else om) om
    else om
  marshalIndentOM om

/-- The schema `{id: integer example=1, name: string example="a",
meta: object}` with its property map listed in declaration order. -/
def petPropsDecl : List (String × SchemaRef) :=
  [("id", .mk "" (.mk (some ["integer"]) [] (some (.num 1)))),
   ("name", .mk "" (.mk (some ["string"]) [] (some (.str "a")))),
   ("meta", .mk "" (.mk (some ["object"]) [] none))]

/-- The same property map observed by a `range` loop in the order
`name, id, meta` — Go map iteration order is unspecified, so this order is
as legal as the declaration order. -/
def petPropsRanged : List (String × SchemaRef) :=
  [("name", .mk "" (.mk (some ["string"]) [] (some (.str "a")))),
   ("id", .mk "" (.mk (some ["integer"]) [] (some (.num 1)))),
   ("meta", .mk "" (.mk (some ["object"]) [] none))]

def petSchemaDecl : Schema := .mk (some ["object"]) petPropsDecl none

def petSchemaRanged : Schema := .mk (some ["object"]) petPropsRanged none

/-- C2: the synthesized example emits the eligible properties in the order
the `range` loop yields the property map — an order Go does not tie to the
declaration order.  The two schemas below are the same map (their property
lists are permutations); iterated in declaration order the output is
`{"id": 1, "name": "a"}`, iterated in the equally legal order
`name, id, meta` it is `{"name": "a", "id": 1}`, so the emission order
claimed by the spec is not guaranteed by the code. -/
theorem schema_example_tracks_range_order :
    petPropsDecl.Perm petPropsRanged ∧
      extractSchemaExample petSchemaDecl
          = "\x7b\n  \"id\": 1,\n  \"name\": \"a\"\n\x7d" ∧
      extractSchemaExample petSchemaRanged
          = "\x7b\n  \"name\": \"a\",\n  \"id\": 1\n\x7d" ∧
      extractSchemaExample petSchemaRanged ≠ extractSchemaExample petSchemaDecl := by
  refine ⟨List.Perm.swap _ _ _, by decide, by decide, by decide⟩

/-! ## The configuration data model -/

structure Header : Type where
  name : String
  value : String
deriving DecidableEq, Repr

/-- The `Response` record of the configuration (optional fields are nil-able
pointers in Go; `Body` is transient and not serialized). -/
structure Response : Type where
  name : String
  code : Int
  query : String
  headers : Option (List Header)
  filePath : Option String
  body : Option String
deriving DecidableEq, Repr, Inhabited

structure Request : Type where
  name : String
  method : String
  path : String
  responses : List Response
deriving DecidableEq, Repr

/-- `MockServerSetting`.  `Folder` and `Schemas` carry `yaml:"-"` and are
not serialized; `Schemas` is never assigned by the program and stays empty. -/
structure MockServerSetting : Type where
  name : String
  description : String
  folder : String
  host : String
  port : Nat
  swaggerEnabled : Bool
  headers : Option (List Header)
  requests : List Request
  schemas : List (String × String)
deriving DecidableEq, Repr

/-- How a run aborts: a nil-pointer dereference panic, or `log.Fatalf`. -/
inductive GoAbort : Type where
  | nilPanic : GoAbort
  | fatal (msg : String) : GoAbort
deriving DecidableEq, Repr

deriving instance DecidableEq for Except

/-! ## Integer parsing and printing (`strconv.Atoi` / `Itoa`) -/

/-- `strconv.Atoi` on a 64-bit platform: an optional sign, then at least one
decimal digit and nothing else, with the value required to fit in `int64`
(any error, including range errors, makes the caller `log.Fatalf`, so the
error cases collapse to `none`). -/
def goAtoi (s : String) : Option Int :=
  let cs := s.data
  let signAndDigits :
      Bool × List Char :=
    match cs with
    | '+' :: rest => (false, rest)
    | '-' :: rest => (true, rest)
    | _ => (false, cs)
  let neg := signAndDigits.1
  let ds := signAndDigits.2
  if ds.isEmpty then none
  else if ds.all (fun c => '0' ≤ c && c ≤ '9') then
    let n : Nat := ds.foldl (fun acc c => acc * 10 + (c.toNat - '0'.toNat)) 0
    if neg then
      if n ≤ 2 ^ 63 then some (-(n : Int)) else none
    else
      if n ≤ 2 ^ 63 - 1 then some (n : Int) else none
  else none

/-- `strconv.Itoa` (and the `%d` verb of `fmt.Sprintf`): Lean's decimal
rendering of an integer coincides with Go's for the `int64` range. -/
def goItoa (n : Int) : String := toString n

/-- `String`-level wrapper of the sanitizer. -/
def cleanFolderNameStr (s : String) : String := String.mk (cleanFolderName s.data)

/-! ## Operations, responses and the Response Extractor
(`extractResponse`, mock-server-setting.go:130-214) -/

/-- kin-openapi `Example`: `Value` is an `interface{}`; `none` models nil. -/
structure ExampleObj : Type where
  value : Option Json

/-- kin-openapi `MediaType`: the named-examples map (whose values are
nil-able `*ExampleRef` pointers) and the optional schema reference. -/
structure MediaType : Type where
  examples : List (String × Option ExampleObj)
  schema : Option SchemaRef

/-- kin-openapi `Response` definition: optional description, and the
content map — `none` is a nil map, and each entry's `*MediaType` pointer is
itself nil-able. -/
structure ResponseDef : Type where
  description : Option String
  content : Option (List (String × Option MediaType))

/-- kin-openapi `ResponseRef`: `Value` may be nil. -/
structure ResponseRef : Type where
  value : Option ResponseDef

/-- kin-openapi `Operation`: the identifier and the responses map (keys are
textual status codes). -/
structure Operation : Type where
  operationID : String
  responses : List (String × ResponseRef)

/-- Go map lookup in the schema-examples table (`schemaExamples[ref]` with
its `ok` flag as an `Option`). -/
def mapGet (m : List (String × String)) (k : String) : Option String :=
  (m.find? (fun kv => kv.1 == k)).map (·.2)

/-- Go map store `m[k] = v`: replace the key's value or add the key. -/
def mapSet (m : List (String × String)) (k v : String) : List (String × String) :=
  if m.any (fun kv => kv.1 == k) then
    m.map (fun kv => if kv.1 == k then (k, v) else kv)
  else m ++ [(k, v)]

/-- `getBodyString` (mock-server-setting.go:216-239): nil reference or nil
value yields `""`; a string value is used verbatim (`fmt.Sprintf "%s"`);
any other value is pretty-printed by `json.MarshalIndent` with 2-space
indentation. -/
def getBodyString : Option ExampleObj → String
  | none => ""
  | some e =>
    match e.value with
    | none => ""
    | some (Json.str s) => s
    | some j => renderJson j

/-- One iteration of the content-type loop
(mock-server-setting.go:151-203): a nil `*MediaType` is skipped; named
examples each yield a response (body attached only when non-empty);
otherwise a non-empty schema reference with a non-empty synthesized example
yields one response with that body; otherwise one body-less response. -/
def responsesForContentType (schemaExamples : List (String × String))
    (description key : String) (code : Int) (ct : String) :
    Option MediaType → List Response
  | none => []
  | some content =>
    let headers : List Header := [⟨"Content-Type", ct⟩]
    if content.examples.length > 0 then
      content.examples.map (fun ex =>
        let bodyStr := getBodyString ex.2
        { name := cleanFolderNameStr description
          code := code
          query := "?key=" ++ key ++ "&contentType=" ++ ct ++ "&name=" ++ ex.1
          headers := some headers
          filePath := none
          body := if bodyStr.length > 0 then some bodyStr else none })
    else
      match content.schema with
      | some schemaRef =>
        if schemaRef.ref ≠ "" then
          match mapGet schemaExamples schemaRef.ref with
          | some bodyStr =>
            if bodyStr ≠ "" then
              [{ name := cleanFolderNameStr description, code := code,
                 query := "?key=" ++ key ++ "&contentType=" ++ ct,
                 headers := some headers, filePath := none, body := some bodyStr }]
            else
              [{ name := cleanFolderNameStr description, code := code,
                 query := "?key=" ++ key ++ "&contentType=" ++ ct,
                 headers := some headers, filePath := none, body := none }]
          | none =>
            [{ name := cleanFolderNameStr description, code := code,
               query := "?key=" ++ key ++ "&contentType=" ++ ct,
               headers := some headers, filePath := none, body := none }]
        else
          [{ name := cleanFolderNameStr description, code := code,
             query := "?key=" ++ key ++ "&contentType=" ++ ct,
             headers := some headers, filePath := none, body := none }]
      | none =>
        [{ name := cleanFolderNameStr description, code := code,
           query := "?key=" ++ key ++ "&contentType=" ++ ct,
           headers := some headers, filePath := none, body := none }]

/-- The body of the response loop (mock-server-setting.go:134-211) for one
entry of the operation's responses map.  Line 137 reads
`responseItem.Value.Description` before any nil check on `Value`: a nil
`Value` panics right there, before the status key is even parsed. -/
def processResponseEntry (schemaExamples : List (String × String))
    (key : String) (item : ResponseRef) : Except GoAbort (List Response) :=
  match item.value with
  | none => .error .nilPanic
  | some v =>
    let description := (v.description).getD ""
    match goAtoi key with
    | none => .error (.fatal "Failed to convert response code to integer")
    | some code =>
      match v.content with
      | some contentEntries =>
        .ok (contentEntries.flatMap (fun ce =>
          responsesForContentType schemaExamples description key code ce.1 ce.2))
      | none =>
        .ok [{ name := cleanFolderNameStr description, code := code,
               query := "?key=" ++ goItoa code,
               headers := none, filePath := none, body := none }]

/-- The response loop of `extractResponse`, accumulating into `responses`
and aborting the run on the first panic or `log.Fatalf`. -/
def extractResponseGo (schemaExamples : List (String × String)) :
    List (String × ResponseRef) → List Response → Except GoAbort (List Response)
  | [], acc => .ok acc
  | kv :: rest, acc =>
    match processResponseEntry schemaExamples kv.1 kv.2 with
    | .error e => .error e
    | .ok rs => extractResponseGo schemaExamples rest (acc ++ rs)

/-- `extractResponse` (mock-server-setting.go:130-214). -/
def extractResponse (operation : Operation)
    (schemaExamples : List (String × String)) : Except GoAbort (List Response) :=
  extractResponseGo schemaExamples operation.responses []

/-! ## The Fixture Layout Planner (`SaveSetting`, mock-server-setting.go:311-341)
without the I/O: the mutated configuration and the planned file writes. -/

structure FileWrite : Type where
  path : String
  content : String
deriving DecidableEq, Repr

/-- The path computations of `SaveSetting`'s loop body
(mock-server-setting.go:315-319): the relative path recorded in the
configuration and the full path actually written. -/
def responseFilePaths (folder settingName method requestName : String)
    (r : Response) : String × String :=
  let folderRelativePath := method ++ "/" ++ requestName ++ "/" ++ goItoa r.code
  let folderFullPath := folder ++ "/" ++ folderRelativePath
  let fileName := cleanFolderNameStr r.name
  ("./data/" ++ cleanFolderNameStr settingName ++ "/" ++ folderRelativePath
      ++ "/" ++ fileName ++ ".json",
    folderFullPath ++ "/" ++ fileName ++ ".json")

/-- One response of `SaveSetting`'s loop (mock-server-setting.go:313-339):
a response carrying a body gets the relative path recorded and its body
planned as a write to the full path; a body-less response is left untouched
and writes nothing. -/
def planResponse (folder settingName method requestName : String)
    (r : Response) : Response × Option FileWrite :=
  let paths := responseFilePaths folder settingName method requestName r
  match r.body with
  | some b => ({ r with filePath := some paths.1 }, some ⟨paths.2, b⟩)
  | none => (r, none)

def planRequest (folder settingName : String) (req : Request) :
    Request × List FileWrite :=
  let planned := req.responses.map (planResponse folder settingName req.method req.name)
  ({ req with responses := planned.map (·.1) }, planned.filterMap (·.2))

/-- `SaveSetting` as a planner: the configuration with file paths attached,
and the writes in program order. -/
def saveSettingPlan (m : MockServerSetting) : MockServerSetting × List FileWrite :=
  let planned := m.requests.map (planRequest m.folder m.name)
  ({ m with requests := planned.map (·.1) }, (planned.map (·.2)).flatten)

/-- What a file holds after all writes are executed in order: the last
write to the path wins (`os.WriteFile` truncates). -/
def readBack (ws : List FileWrite) (p : String) : Option String :=
  ws.foldl (fun acc w => if w.path = p then some w.content else acc) none

theorem readBack_foldl_filter (p : String) :
    ∀ (ws : List FileWrite) (acc : Option String),
      ws.foldl (fun acc w => if w.path = p then some w.content else acc) acc
        = (ws.filter (fun w => w.path == p)).foldl
            (fun acc w => if w.path = p then some w.content else acc) acc := by
  intro ws
  induction ws with
  | nil => intro acc; rfl
  | cons w rest ih =>
    intro acc
    by_cases h : w.path = p
    · have hb : (w.path == p) = true := by simp [h]
      simp only [List.foldl_cons, List.filter_cons, hb, if_true, if_pos h]
      exact ih (some w.content)
    · have hb : (w.path == p) = false := by simp [h]
      simp only [List.foldl_cons, List.filter_cons, hb, if_false, if_neg h]
      exact ih acc

theorem readBack_of_unique {ws : List FileWrite} {p : String} {w : FileWrite}
    (hf : ws.filter (fun w' => w'.path == p) = [w]) :
    readBack ws p = some w.content := by
  have hw : w ∈ ws.filter (fun w' => w'.path == p) := by
    rw [hf]; exact List.mem_singleton.mpr rfl
  have hp : w.path = p := by
    have := (List.mem_filter.mp hw).2
    simpa using this
  unfold readBack
  rw [readBack_foldl_filter, hf]
  simp [hp]

/-- C5 (amended): every ResponseSpec carrying a body has its body planned,
byte for byte, as the write at its full path; and reading the path back
after all writes yields that body provided the path is planned by exactly
one write — sibling responses whose sanitized names and status codes
coincide target the same file, and the later write silently overwrites the
earlier one. -/
theorem save_plan_write_content_matches_body
    (m : MockServerSetting) (req : Request) (r : Response) (b : String)
    (hreq : req ∈ m.requests) (hr : r ∈ req.responses) (hb : r.body = some b) :
    FileWrite.mk (responseFilePaths m.folder m.name req.method req.name r).2 b
        ∈ (saveSettingPlan m).2 ∧
      ((saveSettingPlan m).2.filter
            (fun w => w.path
              == (responseFilePaths m.folder m.name req.method req.name r).2)
          = [FileWrite.mk
              (responseFilePaths m.folder m.name req.method req.name r).2 b] →
        readBack (saveSettingPlan m).2
            (responseFilePaths m.folder m.name req.method req.name r).2
          = some b) := by
  constructor
  · have hw : (planResponse m.folder m.name req.method req.name r).2
        = some (FileWrite.mk
            (responseFilePaths m.folder m.name req.method req.name r).2 b) := by
      simp [planResponse, hb]
    have hwin : FileWrite.mk
        (responseFilePaths m.folder m.name req.method req.name r).2 b
        ∈ (planRequest m.folder m.name req).2 := by
      simp only [planRequest]
      exact List.mem_filterMap.mpr
        ⟨planResponse m.folder m.name req.method req.name r,
          List.mem_map.mpr ⟨r, hr, rfl⟩, hw⟩
    simp only [saveSettingPlan]
    rw [List.mem_flatten]
    exact ⟨(planRequest m.folder m.name req).2,
      List.mem_map.mpr ⟨planRequest m.folder m.name req,
        List.mem_map.mpr ⟨req, hreq, rfl⟩, rfl⟩, hwin⟩
  · intro hf
    exact readBack_of_unique hf

def r1c : Response := ⟨"", 200, "", none, none, some "AAA"⟩

def r2c : Response := ⟨"", 200, "", none, none, some "BBB"⟩

def m5 : MockServerSetting :=
  ⟨"S", "", "F", "0.0.0.0", 10000, true, none, [⟨"op", "GET", "/p", [r1c, r2c]⟩], []⟩

/-- C5 counterexample: both responses of `m5` (empty descriptions, equal
status codes) are assigned the same full path `F/GET/op/200/.json`; after
both planned writes execute, reading that path back yields the second
body `"BBB"`, not the first response's pre-planning body `"AAA"`. -/
theorem save_roundtrip_overwrite_ce :
    m5.requests = [⟨"op", "GET", "/p", [r1c, r2c]⟩] ∧
      r1c.body = some "AAA" ∧
      (responseFilePaths m5.folder m5.name "GET" "op" r1c).2
        = "F/GET/op/200/.json" ∧
      readBack (saveSettingPlan m5).2
          (responseFilePaths m5.folder m5.name "GET" "op" r1c).2
        = some "BBB" ∧
      readBack (saveSettingPlan m5).2
          (responseFilePaths m5.folder m5.name "GET" "op" r1c).2
        ≠ some "AAA" := by
  refine ⟨rfl, rfl, by decide, by decide, by decide⟩

def r5w : Response := ⟨"ok", 200, "", none, none, some "AAA"⟩

def req5w : Request := ⟨"op", "GET", "/p", [r5w]⟩

def m5w : MockServerSetting :=
  ⟨"S", "", "F", "0.0.0.0", 10000, true, none, [req5w], []⟩

/-- Witness for C5 (amended) at a one-response configuration. -/
theorem save_plan_write_content_matches_body_witness :
    FileWrite.mk (responseFilePaths m5w.folder m5w.name req5w.method req5w.name r5w).2 "AAA"
        ∈ (saveSettingPlan m5w).2 ∧
      ((saveSettingPlan m5w).2.filter
            (fun w => w.path
              == (responseFilePaths m5w.folder m5w.name req5w.method req5w.name r5w).2)
          = [FileWrite.mk
              (responseFilePaths m5w.folder m5w.name req5w.method req5w.name r5w).2 "AAA"] →
        readBack (saveSettingPlan m5w).2
            (responseFilePaths m5w.folder m5w.name req5w.method req5w.name r5w).2
          = some "AAA") :=
  save_plan_write_content_matches_body m5w req5w r5w "AAA"
    (by decide) (by decide) (by decide)

/-- C6: a response definition declaring no content map yields exactly one
ResponseSpec, named after the sanitized description, with query
`?key=<code>`, no headers and no body; and the layout planner leaves such a
body-less spec unchanged (no file path) and plans no write for it. -/
theorem no_content_single_keyed_response
    (tbl : List (String × String)) (key : String) (code : Int)
    (desc : Option String) (folder settingName method requestName : String)
    (hkey : goAtoi key = some code) :
    processResponseEntry tbl key ⟨some ⟨desc, none⟩⟩
        = .ok [⟨cleanFolderNameStr (desc.getD ""), code, "?key=" ++ goItoa code,
            none, none, none⟩] ∧
      planResponse folder settingName method requestName
          ⟨cleanFolderNameStr (desc.getD ""), code, "?key=" ++ goItoa code,
            none, none, none⟩
        = (⟨cleanFolderNameStr (desc.getD ""), code, "?key=" ++ goItoa code,
            none, none, none⟩, none) := by
  constructor
  · simp [processResponseEntry, hkey]
  · rfl

/-- Witness for C6 at key `"200"` with description `"OK"`. -/
theorem no_content_single_keyed_response_witness :
    processResponseEntry [] "200" ⟨some ⟨some "OK", none⟩⟩
        = .ok [⟨cleanFolderNameStr "OK", 200, "?key=" ++ goItoa 200,
            none, none, none⟩] ∧
      planResponse "F" "S" "GET" "op"
          ⟨cleanFolderNameStr "OK", 200, "?key=" ++ goItoa 200,
            none, none, none⟩
        = (⟨cleanFolderNameStr "OK", 200, "?key=" ++ goItoa 200,
            none, none, none⟩, none) :=
  no_content_single_keyed_response [] "200" 200 (some "OK") "F" "S" "GET" "op"
    (by decide)

theorem extractResponseGo_not_ok_of_mem (tbl : List (String × String)) :
    ∀ (entries : List (String × ResponseRef)) (acc : List Response)
      (kv : String × ResponseRef), kv ∈ entries →
      (∀ l, processResponseEntry tbl kv.1 kv.2 ≠ .ok l) →
      ¬ ∃ l, extractResponseGo tbl entries acc = .ok l := by
  intro entries
  induction entries with
  | nil =>
    intro acc kv hkv
    exact absurd hkv (List.not_mem_nil kv)
  | cons e rest ih =>
    intro acc kv hkv hbad hex
    obtain ⟨l, hl⟩ := hex
    cases hpe : processResponseEntry tbl e.1 e.2 with
    | error err => simp [extractResponseGo, hpe] at hl
    | ok rs =>
      rcases List.mem_cons.mp hkv with heq | hmem
      · exact hbad rs (heq ▸ hpe)
      · exact ih (acc ++ rs) kv hmem hbad ⟨l, by simpa [extractResponseGo, hpe] using hl⟩

/-- C9: an operation whose responses map holds an entry with a
non-numeric status-code key never extracts successfully: the entry itself
yields no ResponseSpec list, and the whole extraction aborts (panic or
`log.Fatalf`) with no partial result. -/
theorem bad_status_key_aborts (op : Operation) (tbl : List (String × String))
    (k : String) (item : ResponseRef)
    (hmem : (k, item) ∈ op.responses) (hbad : goAtoi k = none) :
    (∀ l, processResponseEntry tbl k item ≠ .ok l) ∧
      ¬ ∃ l, extractResponse op tbl = .ok l := by
  have hpe : ∀ l, processResponseEntry tbl k item ≠ .ok l := by
    intro l hl
    cases hv : item.value with
    | none => simp [processResponseEntry, hv] at hl
    | some v => simp [processResponseEntry, hv, hbad] at hl
  exact ⟨hpe, extractResponseGo_not_ok_of_mem tbl op.responses [] (k, item) hmem hpe⟩

def opBadKey : Operation := ⟨"op", [("2xx", ⟨some ⟨some "desc", none⟩⟩)]⟩

/-- Witness for C9: the key `"2xx"` does not parse, so extraction of the
operation never returns a response list. -/
theorem bad_status_key_aborts_witness :
    ¬ ∃ l, extractResponse opBadKey [] = .ok l :=
  (bad_status_key_aborts opBadKey [] "2xx" ⟨some ⟨some "desc", none⟩⟩
    (List.mem_singleton.mpr rfl) (by decide)).2

/-- C10: the description read at mock-server-setting.go:137 dereferences
`responseItem.Value` before the `!= nil` guard at line 149: an entry whose
response definition is absent panics right in the loop body — even when its
status key is perfectly numeric — and extraction of any operation holding
such an entry can never return a list. -/
theorem absent_response_definition_panics (op : Operation)
    (tbl : List (String × String)) (k : String)
    (hmem : (k, ResponseRef.mk none) ∈ op.responses) :
    processResponseEntry tbl k (ResponseRef.mk none) = .error .nilPanic ∧
      ¬ ∃ l, extractResponse op tbl = .ok l := by
  have hpe : processResponseEntry tbl k (ResponseRef.mk none) = .error .nilPanic := rfl
  refine ⟨hpe, extractResponseGo_not_ok_of_mem tbl op.responses [] (k, .mk none) hmem ?_⟩
  intro l hl
  rw [hpe] at hl
  exact Except.noConfusion hl

def opNilValue : Operation := ⟨"op", [("200", .mk none)]⟩

/-- Witness for C10: a numeric key `"200"` whose definition is absent still
panics at the description read. -/
theorem absent_response_definition_panics_witness :
    processResponseEntry [] "200" (ResponseRef.mk none) = .error .nilPanic ∧
      ¬ ∃ l, extractResponse opNilValue [] = .ok l :=
  absent_response_definition_panics opNilValue [] "200" (List.mem_singleton.mpr rfl)

/-! ## `sort.Slice` (Go ≥ 1.19): pdqsort

`getRequests` sorts each operation's responses with `sort.Slice`
(mock-server-setting.go:114-116), which the Go standard library implements
as pdqsort (`sort/zsortfunc.go`); `sort.Slice` is documented as **not**
guaranteed to be stable.  The functions below transcribe that
implementation over a `List` with index-based access; every loop carries
fuel that the stated call sites amply cover. -/

section GoSort

variable {α : Type} [Inhabited α]

/-- Indexed read, as the `less`/`swap` closures of `sort.Slice` see the
slice. -/
def listGet (l : List α) (i : Nat) : α := l.getI i

/-- `data.Swap(i, j)`. -/
def listSwap (l : List α) (i j : Nat) : List α :=
  (l.set i (listGet l j)).set j (listGet l i)

/-- `insertionSort_func`'s inner loop:
`for j := i; j > a && data.Less(j, j-1); j-- { data.Swap(j, j-1) }`. -/
def siftGo (less : α → α → Bool) (a : Nat) : List α → Nat → List α
  | l, 0 => l
  | l, j + 1 =>
    if a ≤ j ∧ less (listGet l (j + 1)) (listGet l j) then
      siftGo less a (listSwap l (j + 1) j) j
    else l

/-- `insertionSort_func`'s outer loop over `i = a+1 .. b-1`; the fuel
`b - a` covers the trip count exactly. -/
def insertionLoop (less : α → α → Bool) (a b : Nat) :
    Nat → List α → Nat → List α
  | 0, l, _ => l
  | fuel + 1, l, i =>
    if i < b then insertionLoop less a b fuel (siftGo less a l i) (i + 1) else l

/-- `insertionSort_func(data, a, b)`. -/
def insertionSortFunc (less : α → α → Bool) (l : List α) (a b : Nat) : List α :=
  insertionLoop less a b (b - a) l (a + 1)

/-- `siftDown_func(data, root, hi, first)`; fuel bounds the walk down the
heap. -/
def siftDownGo (less : α → α → Bool) : Nat → List α → Nat → Nat → Nat → List α
  | 0, l, _, _, _ => l
  | fuel + 1, l, root, hi, first =>
    let child := 2 * root + 1
    if child ≥ hi then l
    else
      let child :=
        if child + 1 < hi ∧ less (listGet l (first + child)) (listGet l (first + child + 1))
        then child + 1 else child
      if ¬ less (listGet l (first + root)) (listGet l (first + child)) then l
      else siftDownGo less fuel (listSwap l (first + root) (first + child)) child hi first

/-- `heapSort_func`'s build loop, `for i := (hi-1)/2; i >= 0; i--`; the
counter argument is `i + 1`. -/
def heapBuild (less : α → α → Bool) (hi first : Nat) : Nat → List α → List α
  | 0, l => l
  | c + 1, l => heapBuild less hi first c (siftDownGo less (hi + 1) l c hi first)

/-- `heapSort_func`'s pop loop, `for i := hi-1; i >= 0; i--`; the counter
argument is `i + 1`. -/
def heapPop (less : α → α → Bool) (first : Nat) : Nat → List α → List α
  | 0, l => l
  | i + 1, l =>
    let l := listSwap l first (first + i)
    heapPop less first i (siftDownGo less (i + 1) l 0 i first)

/-- `heapSort_func(data, a, b)`. -/
def heapSortFunc (less : α → α → Bool) (l : List α) (a b : Nat) : List α :=
  let first := a
  let hi := b - a
  heapPop less first hi (heapBuild less hi first ((hi - 1) / 2 + 1) l)

/-- `reverseRange_func(data, a, b)`; fuel `b - a` suffices. -/
def reverseRangeGo : Nat → List α → Nat → Nat → List α
  | 0, l, _, _ => l
  | fuel + 1, l, i, j =>
    if i < j then reverseRangeGo fuel (listSwap l i j) (i + 1) (j - 1) else l

/-- `order2_func`: order two indices by the values they point at, counting a
swap when they exchange. -/
def order2Go (less : α → α → Bool) (l : List α) (a b swaps : Nat) :
    Nat × Nat × Nat :=
  if less (listGet l b) (listGet l a) then (b, a, swaps + 1) else (a, b, swaps)

/-- `median_func`: the median index of three, via three `order2` steps. -/
def medianGo (less : α → α → Bool) (l : List α) (a b c swaps : Nat) : Nat × Nat :=
  let s1 := order2Go less l a b swaps
  let a := s1.1
  let b := s1.2.1
  let s2 := order2Go less l b c s1.2.2
  let b := s2.1
  let s3 := order2Go less l a b s2.2.2
  (s3.2.1, s3.2.2)

/-- `medianAdjacent_func`: median of `a-1, a, a+1`. -/
def medianAdjacentGo (less : α → α → Bool) (l : List α) (a swaps : Nat) :
    Nat × Nat :=
  medianGo less l (a - 1) a (a + 1) swaps

inductive SortedHint : Type where
  | increasing : SortedHint
  | decreasing : SortedHint
  | unknown : SortedHint
deriving DecidableEq, Repr

/-- Hint from a swaps count: 0 swaps = increasing, all 12 = decreasing. -/
def hintOfSwaps (swaps : Nat) : SortedHint :=
  if swaps = 0 then .increasing
  else if swaps = 12 then .decreasing
  else .unknown

/-- `choosePivot_func(data, a, b)`: median-of-three (of medians when the
range reaches 50) around the quartile positions. -/
def choosePivotGo (less : α → α → Bool) (l : List α) (a b : Nat) :
    Nat × SortedHint :=
  let length := b - a
  let i := a + length / 4 * 1
  let j := a + length / 4 * 2
  let k := a + length / 4 * 3
  if length ≥ 8 then
    if length ≥ 50 then
      let m1 := medianAdjacentGo less l i 0
      let m2 := medianAdjacentGo less l j m1.2
      let m3 := medianAdjacentGo less l k m2.2
      let md := medianGo less l m1.1 m2.1 m3.1 m3.2
      (md.1, hintOfSwaps md.2)
    else
      let md := medianGo less l i j k 0
      (md.1, hintOfSwaps md.2)
  else (j, .increasing)

/-- `partition_func`'s `for i <= j && data.Less(i, a) { i++ }`. -/
def partIncI (less : α → α → Bool) (l : List α) (a : Nat) :
    Nat → Nat → Nat → Nat
  | 0, i, _ => i
  | fuel + 1, i, j =>
    if i ≤ j ∧ less (listGet l i) (listGet l a) then
      partIncI less l a fuel (i + 1) j
    else i

/-- `partition_func`'s `for i <= j && !data.Less(j, a) { j-- }`. -/
def partDecJ (less : α → α → Bool) (l : List α) (a : Nat) :
    Nat → Nat → Nat → Nat
  | 0, _, j => j
  | fuel + 1, i, j =>
    if i ≤ j ∧ ¬ less (listGet l j) (listGet l a) then
      partDecJ less l a fuel i (j - 1)
    else j

/-- `partition_func`'s main exchange loop (after the first exchange). -/
def partLoop (less : α → α → Bool) (a b : Nat) :
    Nat → List α → Nat → Nat → List α × Nat
  | 0, l, _, j => (l, j)
  | fuel + 1, l, i, j =>
    let i := partIncI less l a (b + 2) i j
    let j := partDecJ less l a (b + 2) i j
    if i > j then (l, j)
    else partLoop less a b fuel (listSwap l i j) (i + 1) (j - 1)

/-- `partition_func(data, a, b, pivot) = (data', newpivot,
alreadyPartitioned)`. -/
def partitionGo (less : α → α → Bool) (l : List α) (a b pivot : Nat) :
    List α × Nat × Bool :=
  let l := listSwap l a pivot
  let i := partIncI less l a (b + 2) (a + 1) (b - 1)
  let j := partDecJ less l a (b + 2) i (b - 1)
  if i > j then (listSwap l j a, j, true)
  else
    let lp := partLoop less a b (b + 2) (listSwap l i j) (i + 1) (j - 1)
    (listSwap lp.1 lp.2 a, lp.2, false)

/-- `partitionEqual_func`'s `for i <= j && !data.Less(a, i) { i++ }`. -/
def partEqIncI (less : α → α → Bool) (l : List α) (a : Nat) :
    Nat → Nat → Nat → Nat
  | 0, i, _ => i
  | fuel + 1, i, j =>
    if i ≤ j ∧ ¬ less (listGet l a) (listGet l i) then
      partEqIncI less l a fuel (i + 1) j
    else i

/-- `partitionEqual_func`'s `for i <= j && data.Less(a, j) { j-- }`. -/
def partEqDecJ (less : α → α → Bool) (l : List α) (a : Nat) :
    Nat → Nat → Nat → Nat
  | 0, _, j => j
  | fuel + 1, i, j =>
    if i ≤ j ∧ less (listGet l a) (listGet l j) then
      partEqDecJ less l a fuel i (j - 1)
    else j

/-- `partitionEqual_func`'s exchange loop. -/
def partEqLoop (less : α → α → Bool) (a b : Nat) :
    Nat → List α → Nat → Nat → List α × Nat
  | 0, l, i, _ => (l, i)
  | fuel + 1, l, i, j =>
    let i := partEqIncI less l a (b + 2) i j
    let j := partEqDecJ less l a (b + 2) i j
    if i > j then (l, i)
    else partEqLoop less a b fuel (listSwap l i j) (i + 1) (j - 1)

/-- `partitionEqual_func(data, a, b, pivot)`: move elements equal to the
pivot to the front, returning the first index past them. -/
def partitionEqualGo (less : α → α → Bool) (l : List α) (a b pivot : Nat) :
    List α × Nat :=
  let l := listSwap l a pivot
  partEqLoop less a b (b + 2) l (a + 1) (b - 1)

/-- The find-first-descent loop of Go's partial insertion sort:
`for i < b && !data.Less(i, i-1) { i++ }`. -/
def firstDescent (less : α → α → Bool) (l : List α) (b : Nat) :
    Nat → Nat → Nat
  | 0, i => i
  | fuel + 1, i =>
    if i < b ∧ ¬ less (listGet l i) (listGet l (i - 1)) then
      firstDescent less l b fuel (i + 1)
    else i

/-- The backward shift `for j := i-1; j >= 1; j--` with its break. -/
def shiftLeftGo (less : α → α → Bool) : Nat → List α → Nat → List α
  | 0, l, _ => l
  | fuel + 1, l, j =>
    if j ≥ 1 then
      if ¬ less (listGet l j) (listGet l (j - 1)) then l
      else shiftLeftGo less fuel (listSwap l j (j - 1)) (j - 1)
    else l

/-- The forward shift `for j := i+1; j < b; j++` with its break. -/
def shiftRightGo (less : α → α → Bool) (b : Nat) : Nat → List α → Nat → List α
  | 0, l, _ => l
  | fuel + 1, l, j =>
    if j < b then
      if ¬ less (listGet l j) (listGet l (j - 1)) then l
      else shiftRightGo less b fuel (listSwap l j (j - 1)) (j + 1)
    else l

/-- `partialInsertionSort_func(data, a, b)`: at most `maxSteps = 5` adjacent
out-of-order pairs get fixed (none at all when `b - a < 50`); returns
whether the range ended up sorted.  The first argument counts the remaining
steps. -/
def pdqPartialInsertionSort (less : α → α → Bool) (a b : Nat) :
    Nat → List α → Nat → List α × Bool
  | 0, l, _ => (l, false)
  | steps + 1, l, i =>
    let i := firstDescent less l b (b + 1) i
    if i = b then (l, true)
    else if b - a < 50 then (l, false)
    else
      let l := listSwap l i (i - 1)
      let l := if i - a ≥ 2 then shiftLeftGo less (b + 1) l (i - 1) else l
      let l := if b - i ≥ 2 then shiftRightGo less b (b + 1) l (i + 1) else l
      pdqPartialInsertionSort less a b steps l i

/-- `bits.Len` (index of the highest set bit plus one; 0 for 0). -/
def bitsLenF : Nat → Nat → Nat
  | 0, _ => 0
  | fuel + 1, n => if n = 0 then 0 else bitsLenF fuel (n / 2) + 1

def goBitsLen (n : Nat) : Nat := bitsLenF 64 n

/-- The xorshift step of Go's `sort` package, on `uint64`. -/
def xorshiftNext (r : Nat) : Nat :=
  let r := (r ^^^ (r <<< 13)) % 2 ^ 64
  let r := r ^^^ (r >>> 17)
  (r ^^^ (r <<< 5)) % 2 ^ 64

/-- One swap of `breakPatterns_func`'s three-iteration loop (the modulus
`nextPowerOfTwo(length)` is recomputed here; it is the same value each
time). -/
def breakOne (l : List α) (a length idx st k : Nat) : List α × Nat :=
  let st := xorshiftNext st
  let other := st &&& ((1 <<< goBitsLen length) - 1)
  let other := if other ≥ length then other - length else other
  (listSwap l (idx - 1 + k) (a + other), st)

/-- `breakPatterns_func(data, a, b)`: xorshift-scatter three elements around
the middle (only for ranges of length at least 8). -/
def breakPatternsGo (l : List α) (a b : Nat) : List α :=
  let length := b - a
  if length ≥ 8 then
    let idx := a + length / 4 * 2 - 1
    let s0 := breakOne l a length idx (length % 2 ^ 64) 0
    let s1 := breakOne s0.1 a length idx s0.2 1
    (breakOne s1.1 a length idx s1.2 2).1
  else l

/-- `pdqsort_func(data, a, b, limit)` (sort/zsortfunc.go, Go ≥ 1.19).  The
first argument is fuel for the outer loop and the recursion; the shorter
side is sorted by the nested recursive call (with its flags reset), the
longer side continues the loop. -/
def pdqsortGo (less : α → α → Bool) :
    Nat → List α → Nat → Nat → Nat → Bool → Bool → List α
  | 0, l, _, _, _, _, _ => l
  | fuel + 1, l, a, b, limit, wasBalanced, wasPartitioned =>
    let length := b - a
    if length ≤ 12 then insertionSortFunc less l a b
    else if limit = 0 then heapSortFunc less l a b
    else
      let bp := if ¬ wasBalanced then (breakPatternsGo l a b, limit - 1) else (l, limit)
      let l := bp.1
      let limit := bp.2
      let ph := choosePivotGo less l a b
      let rev :=
        if ph.2 = SortedHint.decreasing then
          (reverseRangeGo (b - a) l a (b - 1), (b - 1) - (ph.1 - a),
            SortedHint.increasing)
        else (l, ph.1, ph.2)
      let l := rev.1
      let pivot := rev.2.1
      let hint := rev.2.2
      let pi :=
        if wasBalanced ∧ wasPartitioned ∧ hint = SortedHint.increasing then
          pdqPartialInsertionSort less a b 5 l (a + 1)
        else (l, false)
      if pi.2 then pi.1
      else
        let l := pi.1
        if a > 0 ∧ ¬ less (listGet l (a - 1)) (listGet l pivot) then
          let pe := partitionEqualGo less l a b pivot
          pdqsortGo less fuel pe.1 pe.2 b limit wasBalanced wasPartitioned
        else
          let pt := partitionGo less l a b pivot
          let mid := pt.2.1
          let wasPartitioned := pt.2.2
          let leftLen := mid - a
          let rightLen := b - mid
          let wasBalanced := decide (min leftLen rightLen ≥ length / 8)
          if leftLen < rightLen then
            pdqsortGo less fuel (pdqsortGo less fuel pt.1 a mid limit true true)
              (mid + 1) b limit wasBalanced wasPartitioned
          else
            pdqsortGo less fuel (pdqsortGo less fuel pt.1 (mid + 1) b limit true true)
              a mid limit wasBalanced wasPartitioned

/-- `sort.Slice(x, less)`: pdqsort of the whole slice with
`limit = bits.Len(n)`.  The fuel amply bounds every loop iteration and
recursive call the algorithm can make on a list of this length. -/
def goSortSlice (less : α → α → Bool) (l : List α) : List α :=
  pdqsortGo less ((l.length + 2) * (l.length + 2)) l 0 l.length
    (goBitsLen l.length) true true

end GoSort

/-- The comparison closure of mock-server-setting.go:114-116:
`responses[i].Code < responses[j].Code`. -/
def responseLess (r s : Response) : Bool := r.code < s.code

/-- `sort.Slice(responses, ...)` as `getRequests` invokes it. -/
def sortResponsesGo (rs : List Response) : List Response :=
  goSortSlice responseLess rs

/-! ## The Operation Walker and the Mock Configuration Builder
(`getRequests` and `ConvertOpenAPIToMockServer`,
mock-server-setting.go:69-128) -/

/-- `pathItem.Operations()`: the method → operation map (again a Go map;
list order = iteration order). -/
structure PathItem : Type where
  operations : List (String × Operation)

structure Info : Type where
  title : String
  description : String
deriving DecidableEq, Repr

structure Components : Type where
  schemas : Option (List (String × SchemaRef))

/-- The parsed document graph, reduced to the fields the program reads. -/
structure OpenAPIDoc : Type where
  info : Info
  components : Option Components
  paths : List (String × PathItem)

/-- The schema-examples table built at mock-server-setting.go:95-104. -/
def buildSchemaExamples (doc : OpenAPIDoc) : List (String × String) :=
  match doc.components with
  | none => []
  | some comps =>
    match comps.schemas with
    | none => []
    | some schemas =>
      schemas.foldl (fun tbl kv =>
        mapSet tbl ("#/components/schemas/" ++ kv.1)
          (extractSchemaExample kv.2.value)) []

/-- `getRequests` (mock-server-setting.go:93-128): build the table, then
walk paths and methods, extract and sort each operation's responses, and
append one request per operation. -/
def getRequests (doc : OpenAPIDoc) : Except GoAbort (List Request) :=
  let schemaExamples := buildSchemaExamples doc
  doc.paths.foldlM (fun acc pathEntry =>
    pathEntry.2.operations.foldlM (fun acc opEntry => do
      let responses ← extractResponse opEntry.2 schemaExamples
      pure (acc ++ [Request.mk opEntry.2.operationID opEntry.1 pathEntry.1
        (sortResponsesGo responses)]))
      acc) []

/-- `randomPort` (mock-server-setting.go:84-86), with the process id made
an explicit argument. -/
def randomPort (pid : Nat) : Nat := 10000 + pid % 50000

/-- `getHeaders` (mock-server-setting.go:88-90). -/
def getHeaders (_ : OpenAPIDoc) : List Header := []

/-- `ConvertOpenAPIToMockServer` (mock-server-setting.go:69-81).  The
process id is the only process-derived input. -/
def convertOpenAPIToMockServer (doc : OpenAPIDoc) (pid : Nat) :
    Except GoAbort MockServerSetting :=
  match getRequests doc with
  | .error e => .error e
  | .ok requests =>
    .ok { name := doc.info.title
          description := doc.info.description
          folder := ""
          host := "0.0.0.0"
          port := randomPort pid
          swaggerEnabled := true
          headers := some (getHeaders doc)
          requests := requests
          schemas := [] }

/-- `strings.TrimRight` for a one-character cut set. -/
def goTrimRightChar (s : String) (c : Char) : String :=
  String.mk ((s.data.reverse.dropWhile (fun x => x == c)).reverse)

/-- `CreateFolder` (mock-server-setting.go:290-307) without the mkdir:
record the service folder `<targetRoot>/data/<sanitize(name)>`. -/
def createFolder (m : MockServerSetting) (targetFolder : String) :
    MockServerSetting :=
  let folderName := cleanFolderNameStr m.name
  let t := goTrimRightChar (goTrimRightChar targetFolder '/') '\\'
  { m with folder := t ++ "/data/" ++ folderName }

/-- The serialized fields of a configuration other than `port` (`Folder`
and `Schemas` are tagged `yaml:"-"` and are not serialized). -/
structure SerView : Type where
  name : String
  description : String
  host : String
  swaggerEnabled : Bool
  headers : Option (List Header)
  requests : List Request
deriving DecidableEq, Repr

/-- The serialized view of a configuration: every serialized field except
the process-derived port. -/
def serializedView (m : MockServerSetting) : SerView :=
  ⟨m.name, m.description, m.host, m.swaggerEnabled, m.headers, m.requests⟩

/-- One full conversion run (convert → create folder → plan the saves),
returning the port-less serialized view of the configuration document. -/
def runView (doc : OpenAPIDoc) (pid : Nat) (targetFolder : String) :
    Except GoAbort SerView :=
  match convertOpenAPIToMockServer doc pid with
  | .error e => .error e
  | .ok m => .ok (serializedView (saveSettingPlan (createFolder m targetFolder)).1)

theorem planResponse_fst_indep (f f' n me rq : String) (r : Response) :
    (planResponse f n me rq r).1 = (planResponse f' n me rq r).1 := by
  cases hb : r.body <;> simp [planResponse, responseFilePaths, hb]

theorem planRequest_fst_indep (f f' n : String) (req : Request) :
    (planRequest f n req).1 = (planRequest f' n req).1 := by
  simp only [planRequest, List.map_map]
  congr 1
  exact List.map_congr_left (fun r _ => planResponse_fst_indep f f' n req.method req.name r)

/-- The serialized view after planning does not depend on the folder or the
port. -/
theorem view_plan_indep (n d h : String) (sw : Bool) (hs : Option (List Header))
    (reqs : List Request) (sc : List (String × String))
    (f1 f2 : String) (p1 p2 : Nat) :
    serializedView (saveSettingPlan ⟨n, d, f1, h, p1, sw, hs, reqs, sc⟩).1
      = serializedView (saveSettingPlan ⟨n, d, f2, h, p2, sw, hs, reqs, sc⟩).1 := by
  simp only [saveSettingPlan, serializedView, List.map_map]
  congr 1
  exact List.map_congr_left (fun req _ => planRequest_fst_indep f1 f2 n req)

/-- C3 (amended): a conversion run is a pure function of the document graph
(as iterated) and the process id; two runs over the same document graph into
any two target roots produce configuration documents that agree on every
serialized field except the process-derived port.  (What two runs do *not*
share is the iteration order of the document's maps — see the
counterexample — so byte-identity of reruns holds only relative to a fixed
iteration order.) -/
theorem rerun_view_identical_except_port (doc : OpenAPIDoc) (p1 p2 : Nat)
    (root1 root2 : String) :
    runView doc p1 root1 = runView doc p2 root2 := by
  unfold runView convertOpenAPIToMockServer
  cases hreq : getRequests doc with
  | error e => rfl
  | ok requests =>
    simp only [createFolder]
    exact congrArg Except.ok (view_plan_indep _ _ _ _ _ _ _ _ _ _ _)

def opA3 : Operation := ⟨"opA", [("200", ⟨some ⟨some "ok", none⟩⟩)]⟩

def opB3 : Operation := ⟨"opB", [("200", ⟨some ⟨some "ok", none⟩⟩)]⟩

def pathsA3 : List (String × PathItem) := [("/a", ⟨[("GET", opA3)]⟩), ("/b", ⟨[("GET", opB3)]⟩)]

def pathsB3 : List (String × PathItem) := [("/b", ⟨[("GET", opB3)]⟩), ("/a", ⟨[("GET", opA3)]⟩)]

def docA3 : OpenAPIDoc := ⟨⟨"T", "D"⟩, none, pathsA3⟩

def docB3 : OpenAPIDoc := ⟨⟨"T", "D"⟩, none, pathsB3⟩

/-- C3 counterexample: the same document (same info, same components, the
same paths map — the two path lists are permutations of each other)
converted twice with the *same* process id, so the port is equal, still
yields different configuration documents: the request list follows the
unspecified map iteration order, which a rerun need not repeat. -/
theorem conversion_rerun_differs_beyond_port_ce :
    docA3.info = docB3.info ∧
      docA3.components = docB3.components ∧
      docA3.paths.Perm docB3.paths ∧
      runView docA3 42 "root1" ≠ runView docB3 42 "root2" := by
  refine ⟨rfl, rfl, ?_, by decide⟩
  show pathsA3.Perm pathsB3
  exact List.Perm.swap _ _ _

/-! ## Claim C1: response ordering

An operation with thirteen responses and one status-code tie (the keys
`"9"` and `"+9"` both parse to 9).  Go's pdqsort takes the partitioning
path at length 13 (its insertion-sort cutoff is 12), and the partition's
long-distance swaps reorder the two tied responses. -/

def rr13 (d : String) : ResponseRef := ⟨some ⟨some d, none⟩⟩

def op13 : Operation :=
  ⟨"op13",
   [("5", rr13 "d5"), ("9", rr13 "first9"), ("8", rr13 "d8"), ("1", rr13 "d1"),
    ("2", rr13 "d2"), ("+9", rr13 "second9"), ("7", rr13 "d7"), ("4", rr13 "d4"),
    ("6", rr13 "d6"), ("0", rr13 "d0"), ("11", rr13 "d11"), ("10", rr13 "d10"),
    ("12", rr13 "d12")]⟩

def doc13 : OpenAPIDoc := ⟨⟨"T", ""⟩, none, [("/p", ⟨[("GET", op13)]⟩)]⟩

/-- The responses in the order the content-type/example walk produces them
(`extractResponse op13`): `first9` comes before `second9`. -/
def prod13 : List Response :=
  [⟨"d5", 5, "?key=5", none, none, none⟩, ⟨"first9", 9, "?key=9", none, none, none⟩,
   ⟨"d8", 8, "?key=8", none, none, none⟩, ⟨"d1", 1, "?key=1", none, none, none⟩,
   ⟨"d2", 2, "?key=2", none, none, none⟩, ⟨"second9", 9, "?key=9", none, none, none⟩,
   ⟨"d7", 7, "?key=7", none, none, none⟩, ⟨"d4", 4, "?key=4", none, none, none⟩,
   ⟨"d6", 6, "?key=6", none, none, none⟩, ⟨"d0", 0, "?key=0", none, none, none⟩,
   ⟨"d11", 11, "?key=11", none, none, none⟩, ⟨"d10", 10, "?key=10", none, none, none⟩,
   ⟨"d12", 12, "?key=12", none, none, none⟩]

/-- What `sort.Slice` actually makes of `prod13`: sorted by code, but
`second9` now precedes `first9`. -/
def sorted13 : List Response :=
  [⟨"d0", 0, "?key=0", none, none, none⟩, ⟨"d1", 1, "?key=1", none, none, none⟩,
   ⟨"d2", 2, "?key=2", none, none, none⟩, ⟨"d4", 4, "?key=4", none, none, none⟩,
   ⟨"d5", 5, "?key=5", none, none, none⟩, ⟨"d6", 6, "?key=6", none, none, none⟩,
   ⟨"d7", 7, "?key=7", none, none, none⟩, ⟨"d8", 8, "?key=8", none, none, none⟩,
   ⟨"second9", 9, "?key=9", none, none, none⟩, ⟨"first9", 9, "?key=9", none, none, none⟩,
   ⟨"d10", 10, "?key=10", none, none, none⟩, ⟨"d11", 11, "?key=11", none, none, none⟩,
   ⟨"d12", 12, "?key=12", none, none, none⟩]

theorem extractResponse_op13 : extractResponse op13 [] = .ok prod13 := by
  decide

theorem sortResponsesGo_prod13 : sortResponsesGo prod13 = sorted13 := by
  decide

/-- C1 counterexample: the responses attached to `op13`'s RequestSpec are
`sorted13`; the two responses tied at code 9 do **not** keep the order the
walk produced them in (`first9` before `second9`), because `sort.Slice` is
pdqsort and pdqsort is not stable at length 13. -/
theorem responses_tie_order_not_stable_ce :
    extractResponse op13 [] = .ok prod13 ∧
      getRequests doc13 = .ok [⟨"op13", "GET", "/p", sorted13⟩] ∧
      (prod13.filter (fun r => r.code == 9)).map (fun r => r.name)
          = ["first9", "second9"] ∧
      ((sorted13.filter (fun r => r.code == 9)).map (fun r => r.name)
          = ["second9", "first9"]) ∧
      sorted13.filter (fun r => r.code == 9) ≠ prod13.filter (fun r => r.code == 9) := by
  refine ⟨extractResponse_op13, ?_, by decide, by decide, by decide⟩
  have h1 : extractResponse op13 (buildSchemaExamples doc13) = .ok prod13 :=
    extractResponse_op13
  simp only [getRequests, doc13, List.foldlM_cons, List.foldlM_nil, bind, Except.bind, h1,
    sortResponsesGo_prod13]
  rfl

/-! ### The amended C1: up to Go's insertion-sort cutoff of 12 the sort is
the stable insertion sort, hence sorted and tie-preserving.

`stableInsert`/`stableSortResponses` are the reference stable insertion
sort the bridge compares against. -/

/-- Non-decreasing status codes. -/
def respLe (r s : Response) : Prop := r.code ≤ s.code

/-- Insert `x` after every element whose code is `≤ x.code` (the stable
position in a sorted list). -/
def stableInsert (x : Response) : List Response → List Response
  | [] => [x]
  | y :: ys => if responseLess x y then x :: y :: ys else y :: stableInsert x ys

/-- Left-to-right stable insertion sort. -/
def stableSortResponses (rs : List Response) : List Response :=
  rs.foldl (fun acc x => stableInsert x acc) []

theorem listGet_append_len (A : List Response) (u : Response) (B : List Response) :
    listGet (A ++ u :: B) A.length = u := by
  unfold listGet
  rw [List.getI_append_right _ _ _ (Nat.le_refl _)]
  simp [List.getI_cons_zero]

theorem listGet_append_len_succ (A : List Response) (u v : Response) (B : List Response) :
    listGet (A ++ u :: v :: B) (A.length + 1) = v := by
  unfold listGet
  rw [List.getI_append_right _ _ _ (Nat.le_succ_of_le (Nat.le_refl _))]
  simp [List.getI_cons_succ, List.getI_cons_zero]

theorem set_append_len (A : List Response) (u w : Response) (B : List Response) :
    (A ++ u :: B).set A.length w = A ++ w :: B := by
  induction A with
  | nil => rfl
  | cons a A ih => simp [List.set, ih]

theorem set_append_len_succ (A : List Response) (u v w : Response) (B : List Response) :
    (A ++ u :: v :: B).set (A.length + 1) w = A ++ u :: w :: B := by
  induction A with
  | nil => rfl
  | cons a A ih => simp [List.set, ih]

/-- The adjacent swap `data.Swap(j, j-1)` at the boundary of a prefix. -/
theorem listSwap_adjacent (A : List Response) (u v : Response) (B : List Response) :
    listSwap (A ++ u :: v :: B) (A.length + 1) A.length = A ++ v :: u :: B := by
  unfold listSwap
  rw [listGet_append_len_succ, listGet_append_len, set_append_len_succ,
    set_append_len]

theorem stableInsert_append_last_lt (P : List Response) (y x : Response)
    (h : responseLess x y = true) :
    stableInsert x (P ++ [y]) = stableInsert x P ++ [y] := by
  induction P with
  | nil => simp [stableInsert, h]
  | cons z P ih =>
    by_cases hz : responseLess x z = true
    · simp [stableInsert, hz]
    · simp only [Bool.not_eq_true] at hz
      simp [stableInsert, hz, ih]

theorem stableInsert_of_all_ge (x : Response) (L : List Response)
    (h : ∀ z ∈ L, responseLess x z = false) :
    stableInsert x L = L ++ [x] := by
  induction L with
  | nil => rfl
  | cons z L ih =>
    have hz := h z (List.mem_cons_self z L)
    simp [stableInsert, hz, ih (fun w hw => h w (List.mem_cons_of_mem z hw))]

theorem stableInsert_append_last_ge (P : List Response) (y x : Response)
    (hsorted : (P ++ [y]).Pairwise respLe) (h : responseLess x y = false) :
    stableInsert x (P ++ [y]) = (P ++ [y]) ++ [x] := by
  apply stableInsert_of_all_ge
  intro z hz
  have hyx : y.code ≤ x.code := by
    have := h
    simp only [responseLess, decide_eq_false_iff_not] at this
    omega
  have hzy : z.code ≤ y.code := by
    rcases List.mem_append.mp hz with hzP | hzy
    · have := (List.pairwise_append.mp hsorted).2.2 z hzP y (List.mem_singleton.mpr rfl)
      exact this
    · rw [List.mem_singleton.mp hzy]
  simp only [responseLess, decide_eq_false_iff_not]
  omega

/-- The sift of `insertionSort_func` at the boundary of a sorted prefix is
exactly the stable insertion. -/
theorem siftGo_bridge :
    ∀ (P : List Response), P.Pairwise respLe →
      ∀ (x : Response) (S : List Response),
        siftGo responseLess 0 (P ++ x :: S) P.length = stableInsert x P ++ S := by
  intro P
  induction P using List.reverseRecOn with
  | nil => intro _ x S; rfl
  | append_singleton P y ih =>
    intro hsorted x S
    have hlist : (P ++ [y]) ++ x :: S = P ++ y :: x :: S := by simp
    have hlen : (P ++ [y]).length = P.length + 1 := by simp
    rw [hlist, hlen]
    have hgety : listGet (P ++ y :: x :: S) P.length = y := listGet_append_len P y (x :: S)
    have hgetx : listGet (P ++ y :: x :: S) (P.length + 1) = x :=
      listGet_append_len_succ P y x S
    by_cases hxy : responseLess x y = true
    · rw [siftGo]
      rw [if_pos ⟨Nat.zero_le _, by rw [hgetx, hgety]; exact hxy⟩]
      rw [listSwap_adjacent]
      rw [ih (List.pairwise_append.mp hsorted).1 x (y :: S)]
      rw [stableInsert_append_last_lt P y x hxy]
      simp
    · simp only [Bool.not_eq_true] at hxy
      rw [siftGo]
      rw [if_neg (by rw [hgetx, hgety]; simp [hxy])]
      rw [stableInsert_append_last_ge P y x hsorted hxy]
      simp

theorem mem_stableInsert {z x : Response} {L : List Response}
    (h : z ∈ stableInsert x L) : z = x ∨ z ∈ L := by
  induction L with
  | nil => simpa [stableInsert] using h
  | cons y ys ih =>
    by_cases hxy : responseLess x y = true
    · simp only [stableInsert, hxy, if_true] at h
      rcases List.mem_cons.mp h with h1 | h1
      · exact Or.inl h1
      · exact Or.inr h1
    · simp only [stableInsert, hxy, Bool.false_eq_true, if_false] at h
      rcases List.mem_cons.mp h with h1 | h1
      · exact Or.inr (h1 ▸ List.mem_cons_self y ys)
      · rcases ih h1 with h2 | h2
        · exact Or.inl h2
        · exact Or.inr (List.mem_cons_of_mem y h2)

theorem stableInsert_sorted (x : Response) {L : List Response}
    (h : L.Pairwise respLe) : (stableInsert x L).Pairwise respLe := by
  induction L with
  | nil => simp [stableInsert, respLe]
  | cons y ys ih =>
    obtain ⟨hy, hys⟩ := List.pairwise_cons.mp h
    by_cases hxy : responseLess x y = true
    · have hxylt : x.code < y.code := by simpa [responseLess] using hxy
      simp only [stableInsert, hxy, if_true]
      refine List.pairwise_cons.mpr ⟨?_, h⟩
      intro z hz
      rcases List.mem_cons.mp hz with h1 | h1
      · subst h1; exact Int.le_of_lt hxylt
      · exact Int.le_trans (Int.le_of_lt hxylt) (hy z h1)
    · have hyx : y.code ≤ x.code := by
        have : ¬ x.code < y.code := by simpa [responseLess] using hxy
        omega
      simp only [stableInsert, hxy, Bool.false_eq_true, if_false]
      refine List.pairwise_cons.mpr ⟨?_, ih hys⟩
      intro z hz
      rcases mem_stableInsert hz with h1 | h1
      · subst h1; exact hyx
      · exact hy z h1

theorem stableInsert_length (x : Response) (L : List Response) :
    (stableInsert x L).length = L.length + 1 := by
  induction L with
  | nil => rfl
  | cons y ys ih =>
    by_cases hxy : responseLess x y = true <;> simp [stableInsert, hxy, ih]

theorem foldl_stableInsert_sorted :
    ∀ (l : List Response) (acc : List Response), acc.Pairwise respLe →
      (l.foldl (fun acc x => stableInsert x acc) acc).Pairwise respLe := by
  intro l
  induction l with
  | nil => intro acc h; exact h
  | cons x l ih => intro acc h; exact ih _ (stableInsert_sorted x h)

theorem stableSort_sorted (l : List Response) :
    (stableSortResponses l).Pairwise respLe :=
  foldl_stableInsert_sorted l [] (List.Pairwise.nil)

theorem filter_stableInsert (c : Int) (x : Response) :
    ∀ (L : List Response), L.Pairwise respLe →
      (stableInsert x L).filter (fun r => r.code == c)
        = if x.code == c then L.filter (fun r => r.code == c) ++ [x]
          else L.filter (fun r => r.code == c) := by
  intro L
  induction L with
  | nil =>
    intro _
    by_cases hx : x.code = c
    · have hx' : (x.code == c) = true := by simpa using hx
      simp [stableInsert, List.filter_cons, hx']
    · have hx' : (x.code == c) = false := by simpa using hx
      simp [stableInsert, List.filter_cons, hx']
  | cons y ys ih =>
    intro hsorted
    obtain ⟨hy, hys⟩ := List.pairwise_cons.mp hsorted
    by_cases hxy : responseLess x y = true
    · have hxylt : x.code < y.code := by simpa [responseLess] using hxy
      simp only [stableInsert, hxy, if_true]
      by_cases hx : x.code = c
      · subst hx
        have hempty : (y :: ys).filter (fun r => r.code == x.code) = [] := by
          rw [List.filter_eq_nil_iff]
          intro z hz
          have hyz : y.code ≤ z.code := by
            rcases List.mem_cons.mp hz with h1 | h1
            · subst h1; exact Int.le_refl _
            · exact hy z h1
          simp only [beq_iff_eq]
          omega
        rw [List.filter_cons_of_pos (by simp), hempty]
        simp
      · have hx' : (x.code == c) = false := by simpa using hx
        rw [List.filter_cons_of_neg (by simp [hx'])]
        simp [hx']
    · simp only [stableInsert, hxy, Bool.false_eq_true, if_false]
      by_cases hyc : (y.code == c) = true
      · rw [List.filter_cons_of_pos (by simp [hyc]), ih hys,
          List.filter_cons_of_pos (by simp [hyc])]
        by_cases hx : (x.code == c) = true
        · simp [hx]
        · have hx' : (x.code == c) = false := by simpa using hx
          simp [hx']
      · have hyc' : (y.code == c) = false := by simpa using hyc
        rw [List.filter_cons_of_neg (by simp [hyc']), ih hys,
          List.filter_cons_of_neg (by simp [hyc'])]

theorem foldl_stableInsert_filter (c : Int) :
    ∀ (l : List Response) (acc : List Response), acc.Pairwise respLe →
      (l.foldl (fun acc x => stableInsert x acc) acc).filter (fun r => r.code == c)
        = acc.filter (fun r => r.code == c) ++ l.filter (fun r => r.code == c) := by
  intro l
  induction l with
  | nil => intro acc _; simp
  | cons x l ih =>
    intro acc h
    rw [List.foldl_cons, ih _ (stableInsert_sorted x h), filter_stableInsert c x acc h]
    by_cases hx : x.code = c
    · have hx' : (x.code == c) = true := by simpa using hx
      simp [List.filter, hx']
    · have hx' : (x.code == c) = false := by simpa using hx
      simp [List.filter, hx']

/-- Ties filtered by any status code come out of the stable sort exactly in
production order. -/
theorem stableSort_filter (c : Int) (l : List Response) :
    (stableSortResponses l).filter (fun r => r.code == c)
      = l.filter (fun r => r.code == c) := by
  have := foldl_stableInsert_filter c l [] List.Pairwise.nil
  simpa [stableSortResponses] using this

/-- The outer loop of `insertionSort_func` starting from a sorted prefix. -/
theorem insertionLoop_bridge (b : Nat) :
    ∀ (S P : List Response), P.Pairwise respLe → P.length + S.length = b →
      insertionLoop responseLess 0 b (S.length + 1) (P ++ S) P.length
        = S.foldl (fun acc x => stableInsert x acc) P := by
  intro S
  induction S with
  | nil =>
    intro P hsorted hb
    have hb' : P.length = b := by simpa using hb
    have hnlt : ¬ P.length < b := by omega
    simp [insertionLoop, hnlt]
  | cons x S ih =>
    intro P hsorted hb
    have hlt : P.length < b := by
      simp only [List.length_cons] at hb
      omega
    simp only [List.length_cons, insertionLoop, hlt, if_true]
    rw [siftGo_bridge P hsorted x S]
    have hlen : (stableInsert x P).length = P.length + 1 := stableInsert_length x P
    have := ih (stableInsert x P) (stableInsert_sorted x hsorted)
      (by rw [hlen]; simp only [List.length_cons] at hb; omega)
    rw [← hlen]
    simpa using this

/-- `insertionSort_func(data, 0, n)` *is* the stable insertion sort. -/
theorem insertionSortFunc_eq_stableSort (l : List Response) :
    insertionSortFunc responseLess l 0 l.length = stableSortResponses l := by
  cases l with
  | nil => rfl
  | cons c rest =>
    have h := insertionLoop_bridge (c :: rest).length rest [c]
      (by simp [respLe]) (by simp [Nat.add_comm])
    simp only [List.singleton_append] at h
    simpa [insertionSortFunc, stableSortResponses, stableInsert] using h

/-- At the insertion-sort cutoff (length at most 12) `sort.Slice` reduces to
its stable insertion sort. -/
theorem goSortSlice_small (l : List Response) (h : l.length ≤ 12) :
    sortResponsesGo l = stableSortResponses l := by
  unfold sortResponsesGo goSortSlice
  obtain ⟨f, hf⟩ : ∃ f, (l.length + 2) * (l.length + 2) = f + 1 :=
    ⟨(l.length + 2) * (l.length + 2) - 1,
      (Nat.succ_pred_eq_of_pos (Nat.mul_pos (by omega) (by omega))).symm⟩
  rw [hf]
  rw [pdqsortGo]
  rw [if_pos (by simpa using h)]
  exact insertionSortFunc_eq_stableSort l

/-- C1 (amended): for every operation with at most 12 responses — Go's
pdqsort falls back to insertion sort there — the attached list is sorted
non-decreasing by status code and any two responses with equal codes keep
the production order; from 13 responses on the stability half fails, as
the tie-flip counterexample above shows. -/
theorem responses_sorted_and_ties_stable_upto_12 (rs : List Response) (c : Int)
    (h : rs.length ≤ 12) :
    (sortResponsesGo rs).Pairwise respLe ∧
      (sortResponsesGo rs).filter (fun r => r.code == c)
        = rs.filter (fun r => r.code == c) := by
  rw [goSortSlice_small rs h]
  exact ⟨stableSort_sorted rs, stableSort_filter c rs⟩

def w3 : List Response :=
  [⟨"x", 2, "", none, none, none⟩, ⟨"y", 1, "", none, none, none⟩,
   ⟨"z", 2, "", none, none, none⟩]

/-- Witness for the amended C1 at a three-response list with a tie at
code 2. -/
theorem responses_sorted_and_ties_stable_upto_12_witness :
    (sortResponsesGo w3).Pairwise respLe ∧
      (sortResponsesGo w3).filter (fun r => r.code == 2)
        = w3.filter (fun r => r.code == 2) :=
  responses_sorted_and_ties_stable_upto_12 w3 2 (by decide)

end MockServer
